import Mathlib

/-!
Shallow embedding of `compactor2/src/test_util/display.rs`: a renderer that
turns a list of parquet-file descriptors into fixed-width ASCII timeline
lines (one header line per compaction level, one bar line per file).

Modelling conventions:
* Rust `i64` values are modelled as `Int`; `usize` values as `Nat` (whose
  subtraction is exactly `usize::saturating_sub`).  The source's two plain
  (non-saturating) `i64` subtractions — the global `max_time - min_time`
  in `ParquetFileFormatter::new` and the per-file width in `format_file` —
  are modelled with explicit two's-complement wrap (`i64Wrap`, the release
  build's behavior; debug builds panic on overflow instead), and
  `i64::saturating_sub` with explicit clamps (`i64SatSub`).
* The source computes the `ns_per_char` scale in `f64`; this embedding
  idealizes that arithmetic as exact rational arithmetic (`ℚ`), and the
  `as usize` cast as truncation toward zero saturating below at `0`.  The
  idealization is deliberate and visible: correctly-rounded `f64` division
  can land one column away from the exact quotient's floor, so properties
  that depend on the exact value of a scaled width are outside this
  embedding's scope.  The theorems below rely on the scale only where the
  idealization is exact (a zero scale, where no division happens) or where
  the computed ratio is an integer by cancellation (the full-span bar).
* `BTreeMap<CompactionLevel, Vec<&ParquetFile>>` is modelled as an
  association list kept sorted by the key order.
* Rust `format!` width/alignment specifiers are modelled by the explicit
  padding functions `padTo` (left-aligned, default for strings) and
  `centerTo` (centered, extra fill on the right, as in `std::fmt`).
  All rendered text is ASCII, so character counts and byte lengths agree.
-/

namespace Display

/-- Modelled from the spec: `CompactionLevel` lives in the external
`data_types` crate, not in the rendering source.  §3: one of `Initial`,
`NonOverlapped` (source name `FileNonOverlapped`), `Final`, totally ordered
in that sequence. -/
inductive CompactionLevel where
  | Initial
  | FileNonOverlapped
  | Final
deriving DecidableEq, Repr

/-- Modelled from the spec: the semantic rank giving the total order
`Initial < NonOverlapped < Final` (§3); this is the `Ord` used as the
`BTreeMap` key comparator. -/
def CompactionLevel.rank : CompactionLevel → Nat
  | .Initial => 0
  | .FileNonOverlapped => 1
  | .Final => 2

/-- Modelled from the spec: the fields of the external `ParquetFile`
descriptor consumed by the renderer (§3, §6): an id (displayed as a decimal
integer), a compaction level, `min_time`/`max_time` (i64 time units) and a
byte size (i64). -/
structure ParquetFile where
  id : Int
  compaction_level : CompactionLevel
  min_time : Int
  max_time : Int
  file_size_bytes : Int
deriving DecidableEq, Repr

/-- Rust `format!("{s:width$}")` for a string value: left-aligned, padded on
the right with spaces up to `width`; a longer string is not truncated. -/
def padTo (s : String) (width : Nat) : String :=
  s ++ String.mk (List.replicate (width - s.length) ' ')

/-- Rust `format!("{s:fill^width$}")`: centered, the excess fill going to the
right; a longer string is not truncated. -/
def centerTo (s : String) (width : Nat) (fill : Char) : String :=
  let pad := width - s.length
  String.mk (List.replicate (pad / 2) fill) ++ s ++
    String.mk (List.replicate (pad - pad / 2) fill)

/-- Source `const DEFAULT_WIDTH: usize = 80` — default width for printing. -/
def DEFAULT_WIDTH : Nat := 80

/-- Source `const DEFAULT_HEADING_WIDTH: usize = 20` — default width for header. -/
def DEFAULT_HEADING_WIDTH : Nat := 20

/-- Source `enum FileSizeSeen` — helper to track if there are multiple file sizes in
a set of parquet files. -/
inductive FileSizeSeen where
  | None
  | One (sz : Int)
  | Many
deriving DecidableEq, Repr

/-- Source `FileSizeSeen::observe`. -/
def FileSizeSeen.observe : FileSizeSeen → Int → FileSizeSeen
  | .None, file_size_bytes => .One file_size_bytes
  | .One sz, file_size_bytes => if sz = file_size_bytes then .One sz else .Many
  | .Many, _ => .Many

/-- Source `files.iter().map(..).min()` — `Iterator::min` on a list of `i64`. -/
def intMin? : List Int → Option Int
  | [] => none
  | x :: xs =>
    match intMin? xs with
    | none => some x
    | some m => some (min x m)

/-- Source `files.iter().map(..).max()` — `Iterator::max` on a list of `i64`. -/
def intMax? : List Int → Option Int
  | [] => none
  | x :: xs =>
    match intMax? xs with
    | none => some x
    | some m => some (max x m)

/-- The fold of `FileSizeSeen::observe` over the files, starting from
`FileSizeSeen::None`, as in `ParquetFileFormatter::new`. -/
def observeAll (files : List ParquetFile) : FileSizeSeen :=
  files.foldl (fun file_size_seen file => file_size_seen.observe file.file_size_bytes)
    FileSizeSeen.None

/-- Source `struct ParquetFileFormatter` — display parameters for formatting a set
of files.  `ns_per_char` is `f64` in the source, modelled as `ℚ`. -/
structure ParquetFileFormatter where
  file_size_seen : FileSizeSeen
  row_heading_chars : Nat
  width_chars : Nat
  ns_per_char : ℚ
  min_time : Int
  max_time : Int
deriving DecidableEq, Repr

/-- Two's-complement wrap of an integer into the `i64` range: the release
build's semantics of a plain (non-saturating) `i64` subtraction whose
mathematical result overflows (a debug build panics there instead). -/
def i64Wrap (a : Int) : Int :=
  (a + 2 ^ 63) % 2 ^ 64 - 2 ^ 63

/-- Source `ParquetFileFormatter::new` — calculates display parameters for a set of
files.  The source `expect`s a non-empty slice (the caller short-circuits on
empty input); the unreachable empty case defaults the extrema to `0`.
`let time_range = max_time - min_time` is a plain `i64` subtraction, so it
wraps (release) or panics (debug) when the global span reaches `2^63`;
the wrap semantics is modelled by `i64Wrap`. -/
def ParquetFileFormatter.new (files : List ParquetFile) : ParquetFileFormatter :=
  let min_time := (intMin? (files.map (·.min_time))).getD 0
  let max_time := (intMax? (files.map (·.max_time))).getD 0
  let time_range : Int := i64Wrap (max_time - min_time)
  { file_size_seen := observeAll files
    row_heading_chars := DEFAULT_HEADING_WIDTH
    width_chars := DEFAULT_WIDTH
    ns_per_char := (time_range : ℚ) / (DEFAULT_WIDTH : ℚ)
    min_time := min_time
    max_time := max_time }

/-- Rust `as usize` applied to a (here exact rational) `f64` value: truncate
toward zero, saturating below at `0`.  For a nonnegative value this is the
floor; for a negative value both truncation and the saturation yield `0`,
so `Int.toNat ∘ Rat.floor` models the cast on every input. -/
def ratAsUsize (q : ℚ) : Nat := q.floor.toNat

/-- Source `ParquetFileFormatter::time_range_to_chars` — how many characters of
`width_chars` are consumed by `time_range` ns.  The source computes the
positive-scale branch as `(time_range as f64 / self.ns_per_char) as usize`,
i.e. two correctly-rounded `f64` operations followed by a truncating cast;
here it is idealized as one exact rational division with floor, which can
differ from the program's result by one column for general ranges (see the
header note), so no theorem below relies on the exact value of this branch
except where the quotient is an integer by cancellation. -/
def ParquetFileFormatter.time_range_to_chars (fmt : ParquetFileFormatter)
    (time_range : Int) : Nat :=
  if 0 < fmt.ns_per_char then
    ratAsUsize ((time_range : ℚ) / fmt.ns_per_char)
  else if 0 < time_range then
    fmt.width_chars
  else
    0

/-- Source `display_level`. -/
def display_level : CompactionLevel → String
  | .Initial => "L0"
  | .FileNonOverlapped => "L1"
  | .Final => "L2"

/-- Source `display_file_id` — display like `L0.1` with file level and id. -/
def display_file_id (file : ParquetFile) : String :=
  display_level file.compaction_level ++ "." ++ toString file.id

/-- Source `display_format` — compact display of level, id, min/max time and
optional size, like `L0.1[100,200] 1b`. -/
def display_format (file : ParquetFile) (show_size : Bool) : String :=
  let base := display_file_id file ++ "[" ++ toString file.min_time ++ ","
    ++ toString file.max_time ++ "]"
  if show_size then
    base ++ " " ++ toString file.file_size_bytes ++ "b"
  else
    base

/-- Source `ParquetFileFormatter::format_level`. -/
def ParquetFileFormatter.format_level (fmt : ParquetFileFormatter)
    (level : CompactionLevel) : String :=
  let level_heading := display_level level
  let level_heading :=
    match fmt.file_size_seen with
    | .One sz => level_heading ++ ", all files " ++ toString sz ++ "b"
    | _ => level_heading
  padTo level_heading (fmt.width_chars + fmt.row_heading_chars)

/-- The interior field width of a file's bar before the border adjustment:
`width_chars` in the global zero-width special case, otherwise
`time_range_to_chars` of the file's own time range
(`let time_width = (file.max_time - file.min_time).get()`, a plain `i64`
subtraction, hence wrapped by `i64Wrap`). -/
def ParquetFileFormatter.rawInterior (fmt : ParquetFileFormatter)
    (file : ParquetFile) : Nat :=
  if fmt.min_time = fmt.max_time then fmt.width_chars
  else fmt.time_range_to_chars (i64Wrap (file.max_time - file.min_time))

/-- Source `field_width` — the interior width after `saturating_sub(2)` accounting
for the starting and ending `|` (`Nat` subtraction is `usize::saturating_sub`). -/
def ParquetFileFormatter.fieldWidth (fmt : ParquetFileFormatter)
    (file : ParquetFile) : Nat :=
  fmt.rawInterior file - 2

/-- Source `file_string` — `format!("|{:-^width$}|", display_file_id(file))`. -/
def ParquetFileFormatter.fileString (fmt : ParquetFileFormatter)
    (file : ParquetFile) : String :=
  "|" ++ centerTo (display_file_id file) (fmt.fieldWidth file) '-' ++ "|"

/-- Source `show_size` — individual file sizes are shown iff they differ. -/
def ParquetFileFormatter.showSize (fmt : ParquetFileFormatter) : Bool :=
  match fmt.file_size_seen with
  | .Many => true
  | _ => false

/-- Source `i64::saturating_sub`. -/
def i64SatSub (a b : Int) : Int :=
  max (-(2 ^ 63)) (min (2 ^ 63 - 1) (a - b))

/-- Source `prefix_time_range` — `file.min_time.get().saturating_sub(self.min_time)`. -/
def ParquetFileFormatter.leadTimeRange (fmt : ParquetFileFormatter)
    (file : ParquetFile) : Int :=
  i64SatSub file.min_time fmt.min_time

/-- Length of `prefix_padding` — `self.time_range_to_chars(prefix_time_range)`. -/
def ParquetFileFormatter.leadPadLen (fmt : ParquetFileFormatter)
    (file : ParquetFile) : Nat :=
  fmt.time_range_to_chars (fmt.leadTimeRange file)

/-- Source `postfix_padding_len` —
`width_chars.saturating_sub(file_string.len()).saturating_sub(prefix_padding.len())`
(`Nat` subtraction is `usize::saturating_sub`). -/
def ParquetFileFormatter.tailPadLen (fmt : ParquetFileFormatter)
    (file : ParquetFile) : Nat :=
  fmt.width_chars - (fmt.fileString file).length - fmt.leadPadLen file

/-- Source `ParquetFileFormatter::format_file` — formats a single parquet file into
a line depicting its time range. -/
def ParquetFileFormatter.format_file (fmt : ParquetFileFormatter)
    (file : ParquetFile) : String :=
  let file_string := fmt.fileString file
  let row_heading := display_format file fmt.showSize
  if fmt.min_time = fmt.max_time then
    -- special case "zero" width times
    padTo row_heading fmt.row_heading_chars ++ centerTo file_string fmt.width_chars ' '
  else
    padTo row_heading fmt.row_heading_chars
      ++ String.mk (List.replicate (fmt.leadPadLen file) ' ')
      ++ file_string
      ++ String.mk (List.replicate (fmt.tailPadLen file) ' ')

/-- One insertion into the `BTreeMap<CompactionLevel, Vec<&ParquetFile>>` of
`readable_list_of_files`, modelled as an association list sorted by the key
order (`CompactionLevel.rank`): `entry(..).or_insert_with(Vec::new)` followed
by a push of `file`. -/
def insertByLevel (m : List (CompactionLevel × List ParquetFile))
    (file : ParquetFile) : List (CompactionLevel × List ParquetFile) :=
  match m with
  | [] => [(file.compaction_level, [file])]
  | (k, fs) :: rest =>
    if file.compaction_level.rank < k.rank then
      (file.compaction_level, [file]) :: (k, fs) :: rest
    else if file.compaction_level.rank = k.rank then
      (k, fs ++ [file]) :: rest
    else
      (k, fs) :: insertByLevel rest file

/-- Source `files_by_level` — the grouping loop of `readable_list_of_files`:
files split into groups by compaction level, iterated in key order. -/
def files_by_level (files : List ParquetFile) :
    List (CompactionLevel × List ParquetFile) :=
  files.foldl insertByLevel []

/-- The three compaction levels in ascending semantic rank order. -/
def allLevels : List CompactionLevel :=
  [.Initial, .FileNonOverlapped, .Final]

/-- Specification-side description of the grouping (for the refinement
claims): the levels present in the input, in fixed ascending rank order,
each paired with the input-order sublist of its files. -/
def canonicalGroups (files : List ParquetFile) :
    List (CompactionLevel × List ParquetFile) :=
  (allLevels.filter (fun l => files.any (fun f => f.compaction_level == l))).map
    (fun l => (l, files.filter (fun f => f.compaction_level == l)))

/-- The distinct compaction levels present in the input, in rank order. -/
def presentLevels (files : List ParquetFile) : List CompactionLevel :=
  allLevels.filter (fun l => files.any (fun f => f.compaction_level == l))

/-- Source `readable_list_of_files` — the title line (when given), then, for each
level group in key order, one header line followed by one line per file. -/
def readable_list_of_files (title : Option String) (files : List ParquetFile) :
    List String :=
  let output : List String :=
    match title with
    | some t => [t]
    | none => []
  if files.isEmpty then
    output
  else
    let formatter := ParquetFileFormatter.new files
    output ++
      (files_by_level files).flatMap
        (fun g => formatter.format_level g.1 :: g.2.map formatter.format_file)

/-- Source `format_files`. -/
def format_files (title : String) (files : List ParquetFile) : List String :=
  readable_list_of_files (some title) files

/-- Source `format_files_split` — concatenation of two independent renderings. -/
def format_files_split (title1 : String) (files1 : List ParquetFile)
    (title2 : String) (files2 : List ParquetFile) : List String :=
  readable_list_of_files (some title1) files1 ++
    readable_list_of_files (some title2) files2

/-! ## Helper lemmas -/

/-- Unfolding `observe` on the `None` state. -/
@[simp] lemma observe_none (v : Int) :
    FileSizeSeen.observe FileSizeSeen.None v = FileSizeSeen.One v := rfl

/-- Unfolding `observe` on a `One` state. -/
lemma observe_one (w v : Int) :
    FileSizeSeen.observe (FileSizeSeen.One w) v =
      if w = v then FileSizeSeen.One w else FileSizeSeen.Many := rfl

/-- Unfolding `observe` on the `Many` state. -/
@[simp] lemma observe_many (v : Int) :
    FileSizeSeen.observe FileSizeSeen.Many v = FileSizeSeen.Many := rfl

/-- The `Many` state is absorbing for the size fold over a list of files. -/
lemma foldl_observe_many (files : List ParquetFile) :
    files.foldl (fun s f => s.observe f.file_size_bytes) FileSizeSeen.Many =
      FileSizeSeen.Many := by
  induction files with
  | nil => rfl
  | cons f fs ih => simpa [FileSizeSeen.observe] using ih

/-- The `Many` state is absorbing for the size fold over a bare list of sizes. -/
lemma foldl_observe_many_sizes (szs : List Int) :
    szs.foldl FileSizeSeen.observe FileSizeSeen.Many = FileSizeSeen.Many := by
  induction szs with
  | nil => rfl
  | cons s ss ih => simpa [FileSizeSeen.observe] using ih

/-- If all files have size `v`, the fold keeps the state `One v`. -/
lemma foldl_observe_one_of_all (v : Int) (files : List ParquetFile)
    (h : ∀ f ∈ files, f.file_size_bytes = v) :
    files.foldl (fun s f => s.observe f.file_size_bytes) (FileSizeSeen.One v) =
      FileSizeSeen.One v := by
  induction files with
  | nil => rfl
  | cons f fs ih =>
    have hf : f.file_size_bytes = v := h f (by simp)
    have := ih (fun g hg => h g (by simp [hg]))
    simpa [FileSizeSeen.observe, hf] using this

/-- If the fold starting from `One w` ends in `One v`, then `w = v`. -/
lemma foldl_observe_one_start {v w : Int} :
    ∀ files : List ParquetFile,
      files.foldl (fun s f => s.observe f.file_size_bytes) (FileSizeSeen.One w) =
        FileSizeSeen.One v → w = v := by
  intro files
  induction files with
  | nil => intro h; injection h
  | cons f fs ih =>
    intro h
    simp only [List.foldl_cons, observe_one] at h
    by_cases hw : w = f.file_size_bytes
    · exact ih (by simpa [hw] using h)
    · rw [if_neg hw, foldl_observe_many fs] at h
      exact absurd h (by simp)

/-- If the fold ends in `One v`, every observed file has size `v`. -/
lemma foldl_observe_one_sound {v : Int} :
    ∀ (files : List ParquetFile) (s : FileSizeSeen),
      files.foldl (fun s f => s.observe f.file_size_bytes) s = FileSizeSeen.One v →
        ∀ f ∈ files, f.file_size_bytes = v := by
  intro files
  induction files with
  | nil => simp
  | cons f fs ih =>
    intro s h g hg
    simp only [List.foldl_cons] at h
    rcases List.mem_cons.mp hg with hg | hg
    · subst hg
      cases s with
      | None =>
        rw [observe_none] at h
        exact foldl_observe_one_start fs h
      | One w =>
        rw [observe_one] at h
        by_cases hw : w = g.file_size_bytes
        · rw [if_pos hw] at h
          exact hw.symm.trans (foldl_observe_one_start fs h)
        · rw [if_neg hw, foldl_observe_many fs] at h
          exact absurd h (by simp)
      | Many =>
        rw [observe_many, foldl_observe_many fs] at h
        exact absurd h (by simp)
    · cases s with
      | None => exact ih _ h g hg
      | One w => exact ih _ h g hg
      | Many =>
        rw [observe_many, foldl_observe_many fs] at h
        exact absurd h (by simp)

/-- The fold never returns to `None` from a non-`None` state. -/
lemma foldl_observe_ne_none :
    ∀ (files : List ParquetFile) (s : FileSizeSeen), s ≠ FileSizeSeen.None →
      files.foldl (fun s f => s.observe f.file_size_bytes) s ≠ FileSizeSeen.None := by
  intro files
  induction files with
  | nil => intro s hs; simpa using hs
  | cons f fs ih =>
    intro s hs
    simp only [List.foldl_cons]
    apply ih
    cases s with
    | None => exact absurd rfl hs
    | One w => simp only [FileSizeSeen.observe]; split <;> simp
    | Many => simp [FileSizeSeen.observe]

/-- On a non-empty list the fold does not return `None`. -/
lemma observeAll_ne_none {files : List ParquetFile} (h : files ≠ []) :
    observeAll files ≠ FileSizeSeen.None := by
  cases files with
  | nil => exact absurd rfl h
  | cons f fs =>
    unfold observeAll
    simp only [List.foldl_cons, FileSizeSeen.observe]
    exact foldl_observe_ne_none fs _ (by simp)

/-- On a non-empty all-`v` list the fold returns `One v`. -/
lemma observeAll_eq_one {v : Int} {files : List ParquetFile} (hne : files ≠ [])
    (h : ∀ f ∈ files, f.file_size_bytes = v) : observeAll files = FileSizeSeen.One v := by
  cases files with
  | nil => exact absurd rfl hne
  | cons f fs =>
    unfold observeAll
    have hf : f.file_size_bytes = v := h f (by simp)
    simp only [List.foldl_cons, FileSizeSeen.observe, hf]
    exact foldl_observe_one_of_all v fs (fun g hg => h g (by simp [hg]))

/-- If two observed sizes differ, the fold returns `Many`. -/
lemma observeAll_eq_many {files : List ParquetFile}
    (h : ∃ f ∈ files, ∃ g ∈ files, f.file_size_bytes ≠ g.file_size_bytes) :
    observeAll files = FileSizeSeen.Many := by
  obtain ⟨f, hf, g, hg, hfg⟩ := h
  have hne : files ≠ [] := by rintro rfl; simp at hf
  rcases hs : observeAll files with _ | w | _
  · exact absurd hs (observeAll_ne_none hne)
  · have h1 := foldl_observe_one_sound files _ hs f hf
    have h2 := foldl_observe_one_sound files _ hs g hg
    exact absurd (h1.trans h2.symm) hfg
  · rfl

/-- The function `intMin?` returns `none` exactly on the empty list. -/
lemma intMin?_eq_none {l : List Int} : intMin? l = none ↔ l = [] := by
  cases l with
  | nil => simp [intMin?]
  | cons x xs =>
    simp only [intMin?]
    cases intMin? xs <;> simp

/-- The `Iterator::min` result is a lower bound of the list. -/
lemma intMin?_le {l : List Int} {m : Int} (hm : intMin? l = some m) :
    ∀ x ∈ l, m ≤ x := by
  induction l generalizing m with
  | nil => simp [intMin?] at hm
  | cons y ys ih =>
    intro x hx
    simp only [intMin?] at hm
    rcases hys : intMin? ys with _ | m'
    · rw [hys] at hm
      have hym : y = m := by simpa using hm
      obtain rfl := intMin?_eq_none.mp hys
      have hxy : x = y := by simpa using hx
      omega
    · rw [hys] at hm
      have hmm : min y m' = m := by simpa using hm
      rcases List.mem_cons.mp hx with rfl | hx
      · omega
      · have := ih hys x hx
        omega

/-- The function `intMax?` returns `none` exactly on the empty list. -/
lemma intMax?_eq_none {l : List Int} : intMax? l = none ↔ l = [] := by
  cases l with
  | nil => simp [intMax?]
  | cons x xs =>
    simp only [intMax?]
    cases intMax? xs <;> simp

/-- The `Iterator::max` result is an upper bound of the list. -/
lemma le_intMax? {l : List Int} {m : Int} (hm : intMax? l = some m) :
    ∀ x ∈ l, x ≤ m := by
  induction l generalizing m with
  | nil => simp [intMax?] at hm
  | cons y ys ih =>
    intro x hx
    simp only [intMax?] at hm
    rcases hys : intMax? ys with _ | m'
    · rw [hys] at hm
      have hym : y = m := by simpa using hm
      obtain rfl := intMax?_eq_none.mp hys
      have hxy : x = y := by simpa using hx
      omega
    · rw [hys] at hm
      have hmm : max y m' = m := by simpa using hm
      rcases List.mem_cons.mp hx with rfl | hx
      · omega
      · have := ih hys x hx
        omega

/-- The formatter's `min_time` bounds every member file's `min_time` below. -/
lemma new_min_time_le {files : List ParquetFile} {f : ParquetFile} (hf : f ∈ files) :
    (ParquetFileFormatter.new files).min_time ≤ f.min_time := by
  have hx : f.min_time ∈ files.map (·.min_time) := List.mem_map_of_mem _ hf
  rcases hm : intMin? (files.map (·.min_time)) with _ | m
  · obtain h := intMin?_eq_none.mp hm
    rw [h] at hx
    simp at hx
  · have := intMin?_le hm _ hx
    simp [ParquetFileFormatter.new, hm]
    omega

/-- The formatter's `max_time` bounds every member file's `max_time` above. -/
lemma le_new_max_time {files : List ParquetFile} {f : ParquetFile} (hf : f ∈ files) :
    f.max_time ≤ (ParquetFileFormatter.new files).max_time := by
  have hx : f.max_time ∈ files.map (·.max_time) := List.mem_map_of_mem _ hf
  rcases hm : intMax? (files.map (·.max_time)) with _ | m
  · obtain h := intMax?_eq_none.mp hm
    rw [h] at hx
    simp at hx
  · have := le_intMax? hm _ hx
    simp [ParquetFileFormatter.new, hm]
    omega

/-- Appending a file to the input performs one sorted-map insertion on the
canonical (rank-ordered, stably filtered) grouping. -/
lemma canonicalGroups_append (p : List ParquetFile) (f : ParquetFile) :
    canonicalGroups (p ++ [f]) = insertByLevel (canonicalGroups p) f := by
  cases hlev : f.compaction_level <;>
    rcases hI : p.any (fun g => g.compaction_level == CompactionLevel.Initial) <;>
    rcases hN : p.any (fun g => g.compaction_level == CompactionLevel.FileNonOverlapped) <;>
    rcases hF : p.any (fun g => g.compaction_level == CompactionLevel.Final) <;>
    simp [canonicalGroups, allLevels, insertByLevel, CompactionLevel.rank,
      List.any_append, List.filter_append, hlev, hI, hN, hF] <;>
    (intro a ha hc; simp_all)

/-- The `BTreeMap` grouping equals the canonical rank-ordered stable
partition of the input. -/
lemma files_by_level_eq_canonical (files : List ParquetFile) :
    files_by_level files = canonicalGroups files := by
  induction files using List.reverseRecOn with
  | nil => rfl
  | append_singleton p f ih =>
    rw [files_by_level, List.foldl_append, List.foldl_cons, List.foldl_nil,
      ← files_by_level, ih, canonicalGroups_append]

/-- A level with no file in the input contributes the empty filter. -/
lemma filter_eq_nil_of_any_false {files : List ParquetFile} {l : CompactionLevel}
    (h : files.any (fun f => f.compaction_level == l) = false) :
    files.filter (fun f => f.compaction_level == l) = [] := by
  simp only [List.any_eq_false, beq_iff_eq] at h
  simpa [List.filter_eq_nil_iff] using h

/-- The three per-level filters partition the input. -/
lemma filter_levels_length_sum (files : List ParquetFile) :
    (files.filter (fun f => f.compaction_level == CompactionLevel.Initial)).length +
      (files.filter (fun f => f.compaction_level == CompactionLevel.FileNonOverlapped)).length +
      (files.filter (fun f => f.compaction_level == CompactionLevel.Final)).length =
      files.length := by
  induction files with
  | nil => rfl
  | cons f fs ih =>
    cases h : f.compaction_level <;> simp [List.filter_cons, h] <;> omega

/-! ## Claims -/

/-- C5: the size-observation fold satisfies `observe(Unseen, v) = Uniform(v)`,
`observe(Uniform(v), v) = Uniform(v)`, `observe(Uniform(v), v') = Mixed` for
`v' ≠ v`, `observe(Mixed, v) = Mixed`, and once `Mixed` the state stays
`Mixed` under any further sequence of observations. -/
theorem c5_observe_transitions (v v' : Int) (szs : List Int) (h : v' ≠ v) :
    FileSizeSeen.observe FileSizeSeen.None v = FileSizeSeen.One v ∧
    FileSizeSeen.observe (FileSizeSeen.One v) v = FileSizeSeen.One v ∧
    FileSizeSeen.observe (FileSizeSeen.One v) v' = FileSizeSeen.Many ∧
    FileSizeSeen.observe FileSizeSeen.Many v = FileSizeSeen.Many ∧
    szs.foldl FileSizeSeen.observe FileSizeSeen.Many = FileSizeSeen.Many := by
  refine ⟨rfl, ?_, ?_, rfl, foldl_observe_many_sizes szs⟩
  · simp [observe_one]
  · rw [observe_one, if_neg (fun hv => h hv.symm)]

/-- Witness for C5 at `v = 1`, `v' = 2`, observations `[3, 4]`. -/
theorem c5_witness :
    FileSizeSeen.observe FileSizeSeen.None 1 = FileSizeSeen.One 1 ∧
    FileSizeSeen.observe (FileSizeSeen.One 1) 1 = FileSizeSeen.One 1 ∧
    FileSizeSeen.observe (FileSizeSeen.One 1) 2 = FileSizeSeen.Many ∧
    FileSizeSeen.observe FileSizeSeen.Many 1 = FileSizeSeen.Many ∧
    List.foldl FileSizeSeen.observe FileSizeSeen.Many [3, 4] = FileSizeSeen.Many :=
  c5_observe_transitions 1 2 [3, 4] (by decide)

/-- C6: with a title and non-empty files, output line 0 is the title; with a
title and no files, the output is exactly the title line; with no title and
no files, the output is empty. -/
theorem c6_title_lines (t : String) (files : List ParquetFile) (h : files ≠ []) :
    (readable_list_of_files (some t) files).head? = some t ∧
    readable_list_of_files (some t) [] = [t] ∧
    readable_list_of_files none [] = [] := by
  refine ⟨?_, rfl, rfl⟩
  unfold readable_list_of_files
  rcases files with _ | ⟨f, fs⟩
  · exact absurd rfl h
  · simp

/-- Witness for C6 at a singleton input. -/
theorem c6_witness :
    (readable_list_of_files (some "display")
        [⟨1, CompactionLevel.Initial, 0, 0, 1⟩]).head? = some "display" ∧
    readable_list_of_files (some "display") [] = ["display"] ∧
    readable_list_of_files none [] = [] :=
  c6_title_lines "display" [⟨1, CompactionLevel.Initial, 0, 0, 1⟩] (by decide)

/-- On non-empty input the rendering is the title followed, per present
level in rank order, by one header line and the file lines of that level. -/
lemma readable_some_eq (t : String) {files : List ParquetFile} (h : files ≠ []) :
    readable_list_of_files (some t) files =
      t :: (presentLevels files).flatMap (fun l =>
        (ParquetFileFormatter.new files).format_level l ::
          (files.filter (fun f => f.compaction_level == l)).map
            (ParquetFileFormatter.new files).format_file) := by
  unfold readable_list_of_files
  rcases files with _ | ⟨f, fs⟩
  · exact absurd rfl h
  · rw [files_by_level_eq_canonical]
    simp [canonicalGroups, presentLevels, List.flatMap_map]

/-- Restricting a sum to the positions where `p` holds drops only zeros. -/
lemma sum_map_filter_eq {α : Type} (L : List α) (p : α → Bool) (f : α → Nat)
    (h : ∀ a ∈ L, p a = false → f a = 0) :
    ((L.filter p).map f).sum = (L.map f).sum := by
  induction L with
  | nil => rfl
  | cons a L ih =>
    rcases hp : p a with _ | _
    · simp [List.filter_cons, hp, h a (by simp) hp,
        ih (fun b hb hb' => h b (by simp [hb]) hb')]
    · simp [List.filter_cons, hp, ih (fun b hb hb' => h b (by simp [hb]) hb')]

/-- Summing `f + 1` over a list adds the list's length. -/
lemma sum_map_succ {α : Type} (L : List α) (f : α → Nat) :
    (L.map (fun a => f a + 1)).sum = (L.map f).sum + L.length := by
  induction L with
  | nil => rfl
  | cons a L ih => simp [ih]; omega

/-- The per-level filters over the present levels partition the input. -/
lemma sum_present_filter_lengths (files : List ParquetFile) :
    ((presentLevels files).map
        (fun l => (files.filter (fun f => f.compaction_level == l)).length)).sum =
      files.length := by
  unfold presentLevels
  rw [sum_map_filter_eq]
  · have hsum := filter_levels_length_sum files
    simp only [allLevels, List.map_cons, List.map_nil, List.sum_cons, List.sum_nil]
    omega
  · intro l hl hfalse
    simp [filter_eq_nil_of_any_false hfalse]

/-- The grouped rendering contributes one header line per present level and
one line per file. -/
lemma flat_render_length (files : List ParquetFile)
    (G : CompactionLevel → String) (F : ParquetFile → String) :
    ((presentLevels files).flatMap (fun l =>
        G l :: (files.filter (fun f => f.compaction_level == l)).map F)).length =
      (presentLevels files).length + files.length := by
  rw [List.length_flatMap]
  simp only [Function.comp_def, List.length_cons, List.length_map]
  rw [sum_map_succ, sum_present_filter_lengths]
  omega

/-- C2: the tier groups always appear in the fixed ascending rank order
(`Initial < NonOverlapped < Final`) independently of the input order, tiers
with no files are omitted, and the rendered output consists of the title
followed, per present tier in that order, by one header line and the file
lines of that tier. -/
theorem c2_tier_order (files : List ParquetFile) (t : String) :
    (files_by_level files).map Prod.fst = presentLevels files ∧
    (files ≠ [] →
      readable_list_of_files (some t) files =
        t :: (presentLevels files).flatMap (fun l =>
          (ParquetFileFormatter.new files).format_level l ::
            (files.filter (fun f => f.compaction_level == l)).map
              (ParquetFileFormatter.new files).format_file)) := by
  constructor
  · rw [files_by_level_eq_canonical]
    simp [canonicalGroups, presentLevels, Function.comp_def]
  · intro h
    exact readable_some_eq t h

/-- Witness for C2 on input with levels `[Final, Initial, Final]`. -/
theorem c2_witness :
    ([⟨1, CompactionLevel.Final, 0, 0, 1⟩, ⟨2, CompactionLevel.Initial, 0, 0, 1⟩,
        ⟨3, CompactionLevel.Final, 0, 0, 2⟩] : List ParquetFile) ≠ [] ∧
    readable_list_of_files (some "t")
        [⟨1, CompactionLevel.Final, 0, 0, 1⟩, ⟨2, CompactionLevel.Initial, 0, 0, 1⟩,
          ⟨3, CompactionLevel.Final, 0, 0, 2⟩] =
      "t" :: (presentLevels
          [⟨1, CompactionLevel.Final, 0, 0, 1⟩, ⟨2, CompactionLevel.Initial, 0, 0, 1⟩,
            ⟨3, CompactionLevel.Final, 0, 0, 2⟩]).flatMap (fun l =>
        (ParquetFileFormatter.new
            [⟨1, CompactionLevel.Final, 0, 0, 1⟩, ⟨2, CompactionLevel.Initial, 0, 0, 1⟩,
              ⟨3, CompactionLevel.Final, 0, 0, 2⟩]).format_level l ::
          (List.filter (fun f => f.compaction_level == l)
              [⟨1, CompactionLevel.Final, 0, 0, 1⟩, ⟨2, CompactionLevel.Initial, 0, 0, 1⟩,
                ⟨3, CompactionLevel.Final, 0, 0, 2⟩]).map
            (ParquetFileFormatter.new
                [⟨1, CompactionLevel.Final, 0, 0, 1⟩, ⟨2, CompactionLevel.Initial, 0, 0, 1⟩,
                  ⟨3, CompactionLevel.Final, 0, 0, 2⟩]).format_file) :=
  ⟨by decide,
    (c2_tier_order
        [⟨1, CompactionLevel.Final, 0, 0, 1⟩, ⟨2, CompactionLevel.Initial, 0, 0, 1⟩,
          ⟨3, CompactionLevel.Final, 0, 0, 2⟩] "t").2 (by decide)⟩

/-- C3: within each tier group the files appear in the same relative order as
in the original input — every emitted group is exactly the stable filter of
the input at its level. -/
theorem c3_stable_partition (files : List ParquetFile) (l : CompactionLevel)
    (fs : List ParquetFile) (h : (l, fs) ∈ files_by_level files) :
    fs = files.filter (fun f => f.compaction_level == l) := by
  rw [files_by_level_eq_canonical] at h
  simp only [canonicalGroups, List.mem_map, List.mem_filter] at h
  obtain ⟨l', _, hl⟩ := h
  obtain ⟨rfl, rfl⟩ := Prod.mk.injEq .. ▸ hl
  rfl

/-- Witness for C3: the `Final` group of a `[Final, Initial, Final]` input
keeps input order. -/
theorem c3_witness :
    ([⟨1, CompactionLevel.Final, 0, 0, 1⟩, ⟨3, CompactionLevel.Final, 0, 0, 2⟩] :
        List ParquetFile) =
      List.filter (fun f => f.compaction_level == CompactionLevel.Final)
        [⟨1, CompactionLevel.Final, 0, 0, 1⟩, ⟨2, CompactionLevel.Initial, 0, 0, 1⟩,
          ⟨3, CompactionLevel.Final, 0, 0, 2⟩] :=
  c3_stable_partition
    [⟨1, CompactionLevel.Final, 0, 0, 1⟩, ⟨2, CompactionLevel.Initial, 0, 0, 1⟩,
      ⟨3, CompactionLevel.Final, 0, 0, 2⟩]
    CompactionLevel.Final
    [⟨1, CompactionLevel.Final, 0, 0, 1⟩, ⟨3, CompactionLevel.Final, 0, 0, 2⟩]
    (by decide)

/-- C10: for non-empty input with a title, the number of output lines is
exactly 1 (the title) plus the number of distinct levels present (one header
each) plus the number of files (one line each). -/
theorem c10_line_count (t : String) (files : List ParquetFile) (h : files ≠ []) :
    (format_files t files).length =
      1 + (presentLevels files).length + files.length := by
  unfold format_files
  rw [readable_some_eq t h]
  simp only [List.length_cons, flat_render_length]
  omega

/-- Witness for C10 on a three-file, two-level input. -/
theorem c10_witness :
    (format_files "t"
        [⟨1, CompactionLevel.Final, 0, 0, 1⟩, ⟨2, CompactionLevel.Initial, 0, 0, 1⟩,
          ⟨3, CompactionLevel.Final, 0, 0, 2⟩]).length =
      1 + (presentLevels
          [⟨1, CompactionLevel.Final, 0, 0, 1⟩, ⟨2, CompactionLevel.Initial, 0, 0, 1⟩,
            ⟨3, CompactionLevel.Final, 0, 0, 2⟩]).length + 3 :=
  c10_line_count "t"
    [⟨1, CompactionLevel.Final, 0, 0, 1⟩, ⟨2, CompactionLevel.Initial, 0, 0, 1⟩,
      ⟨3, CompactionLevel.Final, 0, 0, 2⟩] (by decide)

/-- C1: two `Initial` files with ids 1 and 2, `min_time = max_time = 0`,
`size_bytes = 1`, title `"display"`, render as exactly four lines: the
title, the header `"L0, all files 1b"` right-padded to 100 columns, and one
line per file with the heading `"L0.1[0,0]"` resp. `"L0.2[0,0]"` padded to
20 columns followed by a full-width bar centered within 80 columns. -/
theorem c1_concrete_scenario :
    format_files "display"
        [⟨1, CompactionLevel.Initial, 0, 0, 1⟩, ⟨2, CompactionLevel.Initial, 0, 0, 1⟩] =
      ["display",
        padTo "L0, all files 1b" 100,
        padTo "L0.1[0,0]" 20 ++ centerTo ("|" ++ centerTo "L0.1" 78 '-' ++ "|") 80 ' ',
        padTo "L0.2[0,0]" 20 ++ centerTo ("|" ++ centerTo "L0.2" 78 '-' ++ "|") 80 ' '] := by
  decide

/-- C4: on non-empty input, if every file has size `v` the headers carry the
`", all files {v}b"` suffix and file lines use the size-free heading; if two
sizes differ no header shows a size and every file line's heading appends
its own `" {size}b"`. -/
theorem c4_size_uniformity (files : List ParquetFile) (v : Int)
    (fmt : ParquetFileFormatter) (hfmt : fmt = ParquetFileFormatter.new files)
    (hne : files ≠ []) :
    ((∀ f ∈ files, f.file_size_bytes = v) →
      fmt.file_size_seen = FileSizeSeen.One v ∧
      fmt.showSize = false ∧
      (∀ l, fmt.format_level l =
        padTo (display_level l ++ ", all files " ++ toString v ++ "b")
          (fmt.width_chars + fmt.row_heading_chars)) ∧
      (∀ f, display_format f fmt.showSize = display_format f false)) ∧
    ((∃ f ∈ files, ∃ g ∈ files, f.file_size_bytes ≠ g.file_size_bytes) →
      fmt.file_size_seen = FileSizeSeen.Many ∧
      fmt.showSize = true ∧
      (∀ l, fmt.format_level l =
        padTo (display_level l) (fmt.width_chars + fmt.row_heading_chars)) ∧
      (∀ f, display_format f fmt.showSize =
        display_format f false ++ " " ++ toString f.file_size_bytes ++ "b")) := by
  subst hfmt
  constructor
  · intro hall
    have h1 : (ParquetFileFormatter.new files).file_size_seen = FileSizeSeen.One v :=
      observeAll_eq_one hne hall
    have h2 : (ParquetFileFormatter.new files).showSize = false := by
      simp [ParquetFileFormatter.showSize, h1]
    refine ⟨h1, h2, ?_, ?_⟩
    · intro l
      rw [ParquetFileFormatter.format_level, h1]
    · intro f
      rw [h2]
  · intro hex
    have h1 : (ParquetFileFormatter.new files).file_size_seen = FileSizeSeen.Many :=
      observeAll_eq_many hex
    have h2 : (ParquetFileFormatter.new files).showSize = true := by
      simp [ParquetFileFormatter.showSize, h1]
    refine ⟨h1, h2, ?_, ?_⟩
    · intro l
      rw [ParquetFileFormatter.format_level, h1]
    · intro f
      rw [h2]
      simp [display_format]

/-- Witness for C4 (uniform branch) on two size-1 files. -/
theorem c4_witness :
    (ParquetFileFormatter.new
        [⟨1, CompactionLevel.Initial, 0, 0, 1⟩,
          ⟨2, CompactionLevel.Initial, 0, 0, 1⟩]).format_level CompactionLevel.Initial =
      padTo (display_level CompactionLevel.Initial ++ ", all files " ++ toString (1 : Int) ++ "b")
        ((ParquetFileFormatter.new
            [⟨1, CompactionLevel.Initial, 0, 0, 1⟩,
              ⟨2, CompactionLevel.Initial, 0, 0, 1⟩]).width_chars +
          (ParquetFileFormatter.new
              [⟨1, CompactionLevel.Initial, 0, 0, 1⟩,
                ⟨2, CompactionLevel.Initial, 0, 0, 1⟩]).row_heading_chars) :=
  (((c4_size_uniformity
        [⟨1, CompactionLevel.Initial, 0, 0, 1⟩, ⟨2, CompactionLevel.Initial, 0, 0, 1⟩]
        1 _ rfl (by decide)).1 (by decide)).2.2.1) CompactionLevel.Initial

/-- A formatter whose scale comes from a positive global span converts that
full span back to the full `width_chars`. -/
lemma time_range_to_chars_full {fmt : ParquetFileFormatter}
    (hns : fmt.ns_per_char =
      ((fmt.max_time - fmt.min_time : Int) : ℚ) / (fmt.width_chars : ℚ))
    (hlt : fmt.min_time < fmt.max_time) (hw : 0 < fmt.width_chars) :
    fmt.time_range_to_chars (fmt.max_time - fmt.min_time) = fmt.width_chars := by
  have hd : (0 : ℚ) < ((fmt.max_time - fmt.min_time : Int) : ℚ) := by
    exact_mod_cast sub_pos.mpr hlt
  have hwq : (0 : ℚ) < (fmt.width_chars : ℚ) := by exact_mod_cast hw
  have hns' : 0 < fmt.ns_per_char := by
    rw [hns]
    positivity
  rw [ParquetFileFormatter.time_range_to_chars, if_pos hns', hns]
  have hd' : ((fmt.max_time - fmt.min_time : Int) : ℚ) ≠ 0 := ne_of_gt hd
  have hq : ((fmt.max_time - fmt.min_time : Int) : ℚ) /
      (((fmt.max_time - fmt.min_time : Int) : ℚ) / (fmt.width_chars : ℚ)) =
      ((fmt.width_chars : Nat) : ℚ) := by
    rw [div_div_eq_mul_div, mul_comm, mul_div_assoc, div_self hd', mul_one]
  rw [hq, ratAsUsize,
    show ((fmt.width_chars : Nat) : ℚ).floor = (fmt.width_chars : Int) from rfl,
    Int.toNat_natCast]

/-- Counterexample to C8 as stated: one `Initial` file on `[-2^62, 2^62]`
is a non-empty input with positive global span whose file covers the whole
range, yet the source's plain `i64` span subtraction overflows there — a
debug build panics, and a release build wraps the span to `-2^63`, making
the scale negative and the bar interior `0` columns instead of
`width_chars - 2`. -/
theorem c8_counterexample :
    (ParquetFileFormatter.new
        [⟨1, CompactionLevel.Initial, -(2 ^ 62), 2 ^ 62, 1⟩]).min_time <
      (ParquetFileFormatter.new
        [⟨1, CompactionLevel.Initial, -(2 ^ 62), 2 ^ 62, 1⟩]).max_time ∧
    (ParquetFileFormatter.new
        [⟨1, CompactionLevel.Initial, -(2 ^ 62), 2 ^ 62, 1⟩]).fieldWidth
        ⟨1, CompactionLevel.Initial, -(2 ^ 62), 2 ^ 62, 1⟩ = 0 ∧
    ¬ ((ParquetFileFormatter.new
        [⟨1, CompactionLevel.Initial, -(2 ^ 62), 2 ^ 62, 1⟩]).fieldWidth
        ⟨1, CompactionLevel.Initial, -(2 ^ 62), 2 ^ 62, 1⟩ =
      (ParquetFileFormatter.new
          [⟨1, CompactionLevel.Initial, -(2 ^ 62), 2 ^ 62, 1⟩]).width_chars - 2) := by
  have hns0 : (ParquetFileFormatter.new
      [⟨1, CompactionLevel.Initial, -(2 ^ 62), 2 ^ 62, 1⟩]).ns_per_char =
      ((i64Wrap ((ParquetFileFormatter.new
          [⟨1, CompactionLevel.Initial, -(2 ^ 62), 2 ^ 62, 1⟩]).max_time -
        (ParquetFileFormatter.new
          [⟨1, CompactionLevel.Initial, -(2 ^ 62), 2 ^ 62, 1⟩]).min_time) : Int) : ℚ) /
        ((DEFAULT_WIDTH : Nat) : ℚ) := rfl
  rw [show i64Wrap ((ParquetFileFormatter.new
      [⟨1, CompactionLevel.Initial, -(2 ^ 62), 2 ^ 62, 1⟩]).max_time -
        (ParquetFileFormatter.new
          [⟨1, CompactionLevel.Initial, -(2 ^ 62), 2 ^ 62, 1⟩]).min_time) =
      -(2 ^ 63) from by decide] at hns0
  have hneg : (ParquetFileFormatter.new
      [⟨1, CompactionLevel.Initial, -(2 ^ 62), 2 ^ 62, 1⟩]).ns_per_char < 0 := by
    rw [hns0]
    norm_num [DEFAULT_WIDTH]
  have hfw : (ParquetFileFormatter.new
      [⟨1, CompactionLevel.Initial, -(2 ^ 62), 2 ^ 62, 1⟩]).fieldWidth
      ⟨1, CompactionLevel.Initial, -(2 ^ 62), 2 ^ 62, 1⟩ = 0 := by
    rw [ParquetFileFormatter.fieldWidth, ParquetFileFormatter.rawInterior,
      if_neg (show ¬ (ParquetFileFormatter.new
        [⟨1, CompactionLevel.Initial, -(2 ^ 62), 2 ^ 62, 1⟩]).min_time =
        (ParquetFileFormatter.new
          [⟨1, CompactionLevel.Initial, -(2 ^ 62), 2 ^ 62, 1⟩]).max_time from by decide),
      ParquetFileFormatter.time_range_to_chars, if_neg (not_lt.mpr hneg.le),
      if_neg (show ¬ (0 : Int) <
        i64Wrap ((⟨1, CompactionLevel.Initial, -(2 ^ 62), 2 ^ 62, 1⟩ :
          ParquetFile).max_time -
          (⟨1, CompactionLevel.Initial, -(2 ^ 62), 2 ^ 62, 1⟩ :
            ParquetFile).min_time) from by decide)]
  exact ⟨by decide, hfw, by rw [hfw]; decide⟩

/-- C8 (amended): when the global time span is positive and fits in `i64`
(so the source's span subtraction does not overflow), a file covering the
whole span gets a bar whose interior field is exactly `width_chars − 2`
fill columns framed by `|` (so the bar string has the full `width_chars`
length whenever its label fits the interior). -/
theorem c8_full_range_bar (files : List ParquetFile) (f : ParquetFile)
    (fmt : ParquetFileFormatter) (hfmt : fmt = ParquetFileFormatter.new files)
    (hmin : f.min_time = fmt.min_time) (hmax : f.max_time = fmt.max_time)
    (hspan : fmt.min_time < fmt.max_time)
    (hspan63 : fmt.max_time - fmt.min_time < 2 ^ 63) :
    fmt.fieldWidth f = fmt.width_chars - 2 ∧
    fmt.fileString f =
      "|" ++ centerTo (display_file_id f) (fmt.width_chars - 2) '-' ++ "|" ∧
    ((display_file_id f).length ≤ fmt.width_chars - 2 →
      (fmt.fileString f).length = fmt.width_chars) := by
  subst hfmt
  have hne : ¬ (ParquetFileFormatter.new files).min_time =
      (ParquetFileFormatter.new files).max_time := ne_of_lt hspan
  have hwrap : i64Wrap ((ParquetFileFormatter.new files).max_time -
      (ParquetFileFormatter.new files).min_time) =
      (ParquetFileFormatter.new files).max_time -
        (ParquetFileFormatter.new files).min_time := by
    rw [i64Wrap]
    omega
  have hns : (ParquetFileFormatter.new files).ns_per_char =
      (((ParquetFileFormatter.new files).max_time -
        (ParquetFileFormatter.new files).min_time : Int) : ℚ) /
        ((ParquetFileFormatter.new files).width_chars : ℚ) := by
    rw [show (ParquetFileFormatter.new files).ns_per_char =
        ((i64Wrap ((ParquetFileFormatter.new files).max_time -
          (ParquetFileFormatter.new files).min_time) : Int) : ℚ) /
          (((ParquetFileFormatter.new files).width_chars : Nat) : ℚ) from rfl,
      hwrap]
  have hw : (ParquetFileFormatter.new files).width_chars = 80 := rfl
  have hfull := time_range_to_chars_full hns hspan (by omega)
  have hfield : (ParquetFileFormatter.new files).fieldWidth f =
      (ParquetFileFormatter.new files).width_chars - 2 := by
    rw [ParquetFileFormatter.fieldWidth, ParquetFileFormatter.rawInterior, if_neg hne,
      hmin, hmax, hwrap, hfull]
  refine ⟨hfield, ?_, ?_⟩
  · rw [ParquetFileFormatter.fileString, hfield]
  · intro hlen
    rw [ParquetFileFormatter.fileString, hfield]
    simp only [String.length_append, centerTo, String.length_mk, List.length_replicate]
    have h1 : ("|" : String).length = 1 := rfl
    omega

/-- Witness for C8 on a single file spanning `[0, 100]`. -/
theorem c8_witness :
    (ParquetFileFormatter.new
        [⟨1, CompactionLevel.Initial, 0, 100, 1⟩]).fieldWidth
        ⟨1, CompactionLevel.Initial, 0, 100, 1⟩ =
      (ParquetFileFormatter.new
          [⟨1, CompactionLevel.Initial, 0, 100, 1⟩]).width_chars - 2 :=
  (c8_full_range_bar [⟨1, CompactionLevel.Initial, 0, 100, 1⟩]
      ⟨1, CompactionLevel.Initial, 0, 100, 1⟩ _ rfl (by decide) (by decide)
      (by decide) (by decide)).1

/-- C9: every width and padding quantity in file-line rendering is a
floor-at-zero (saturating) subtraction result, and the left-offset time
difference of a member file is never negative, so no width computes as
negative for any input, including ones violating `min_time ≤ max_time`. -/
theorem c9_saturating_widths (files : List ParquetFile) (f : ParquetFile)
    (fmt : ParquetFileFormatter) (hfmt : fmt = ParquetFileFormatter.new files)
    (hf : f ∈ files) :
    ((fmt.fieldWidth f : Int) = max ((fmt.rawInterior f : Int) - 2) 0) ∧
    0 ≤ fmt.leadTimeRange f ∧
    ((fmt.tailPadLen f : Int) =
      max ((fmt.width_chars : Int) - ((fmt.fileString f).length : Int) -
        ((fmt.leadPadLen f : Nat) : Int)) 0) := by
  refine ⟨?_, ?_, ?_⟩
  · rw [ParquetFileFormatter.fieldWidth]
    omega
  · have hle : fmt.min_time ≤ f.min_time := by
      rw [hfmt]
      exact new_min_time_le hf
    rw [ParquetFileFormatter.leadTimeRange, i64SatSub]
    have h63 : (0 : Int) ≤ 2 ^ 63 - 1 := by norm_num
    omega
  · rw [ParquetFileFormatter.tailPadLen]
    omega

/-- Witness for C9 on a two-file input with an inverted time interval. -/
theorem c9_witness :
    0 ≤ (ParquetFileFormatter.new
        [⟨1, CompactionLevel.Initial, 7, 3, 1⟩,
          ⟨2, CompactionLevel.Initial, 5, 4, 1⟩]).leadTimeRange
        ⟨2, CompactionLevel.Initial, 5, 4, 1⟩ :=
  (c9_saturating_widths
      [⟨1, CompactionLevel.Initial, 7, 3, 1⟩, ⟨2, CompactionLevel.Initial, 5, 4, 1⟩]
      ⟨2, CompactionLevel.Initial, 5, 4, 1⟩ _ rfl (by decide)).2.1

end Display
